import Mathlib

/-!
# image-optimization: the batch pipeline, embedded and verified

A shallow embedding of the Go sources `utils/utils.go`, `s3/s3_client.go`,
`processor/processor.go` and `main.go`.

* Go strings are modelled by `String` (sequences of runes); `int`/`int64` by `Int`
  (no arithmetic here can overflow: the only arithmetic is `quality -= 5` from 80
  and counters bounded by list lengths).
* Calls that leave the program (the operating system, the S3 SDK, the `imaging`
  codec) are oracles collected in `Env`; their effects on the local file system and
  on the store are explicit in `World`.
-/

namespace ImageOptimization

/-! ## Package `utils` (with the two standard-library functions it calls) -/

/-- Go's `os.IsPathSeparator` on the Unix build: `/` is the only separator. -/
def IsPathSeparator (c : Char) : Bool := c == '/'

/-- The loop of Go's `filepath.Ext`:
`for i := len(path) - 1; i >= 0 && !os.IsPathSeparator(path[i]); i-- { if path[i] == '.' { return path[i:] } }; return ""`.
The argument `n` is `i + 1`, so `n = 0` is the exit `i < 0`. Both `'.'` and `'/'` are ASCII,
so scanning runes and scanning bytes find the same position. -/
def extScan (path : List Char) : Nat → List Char
  | 0 => []
  | i + 1 =>
    match path.get? i with
    | none => []
    | some c =>
      if IsPathSeparator c then []
      else if c == '.' then path.drop i
      else extScan path i

/-- Go's `filepath.Ext`. -/
def Ext (path : String) : String := ⟨extScan path.data path.data.length⟩

/-- Go's `unicode.ToLower` on one rune: the ASCII branch is the one of the library
(`if 'A' <= r && r <= 'Z' { r += 'a' - 'A' }`); above ASCII the library consults its
case tables, which are the parameter `caseTable`. -/
def toLowerRune (caseTable : Char → Char) (r : Char) : Char :=
  if r.toNat ≤ 0x7F then
    if 'A'.toNat ≤ r.toNat ∧ r.toNat ≤ 'Z'.toNat then Char.ofNat (r.toNat + ('a'.toNat - 'A'.toNat)) else r
  else caseTable r

/-- Go's `strings.ToLower`: every rune mapped by `unicode.ToLower` (its ASCII fast path computes
the same string). -/
def ToLower (caseTable : Char → Char) (s : String) : String := ⟨s.data.map (toLowerRune caseTable)⟩

/-- `utils.IsImageFile`. -/
def IsImageFile (caseTable : Char → Char) (path : String) : Bool :=
  let ext := ToLower caseTable (Ext path)
  ext == ".jpg" || ext == ".jpeg"

/-- The final element of a path in the words of the specification: what follows the last separator. -/
def finalElement (path : List Char) : List Char :=
  (path.reverse.takeWhile (fun c => !IsPathSeparator c)).reverse

/-- The extension in the words of the specification: the suffix starting at the last dot
of the final path element, empty if there is no dot. -/
def specExt (path : String) : String :=
  let e := finalElement path.data
  if '.' ∈ e then ⟨'.' :: (e.reverse.takeWhile (fun c => c != '.')).reverse⟩ else ""

/-- The scan of `filepath.Ext` read on the reversed prefix, carrying the suffix already passed. -/
def scanRev : List Char → List Char → List Char
  | [], _ => []
  | c :: r, suf =>
    if IsPathSeparator c then []
    else if c == '.' then c :: suf
    else scanRev r (c :: suf)

/-! ## Package `s3` -/

/-- Go errors, identified by their message. -/
abbrev Err := String

/-- `s3.Object` of this repository. -/
structure Object where
  Name : String
  Size : Int
deriving DecidableEq, Repr

/-- A Go slice as far as the callers can tell: `none` is the `nil` slice. -/
abbrev Slice (α : Type) := Option (List α)

/-- Go's `append(s, x)`: appending to a `nil` slice allocates. -/
def Slice.append {α : Type} (s : Slice α) (x : α) : Slice α := some (s.getD [] ++ [x])

/-- The elements of a slice; a `nil` slice has none. -/
def Slice.elems {α : Type} (s : Slice α) : List α := s.getD []

/-- The SDK's `s3.Object`, read through `*obj.Key` and `*obj.Size` (S3 sets both on every listed entry). -/
structure SdkObject where
  Key : String
  Size : Int
deriving DecidableEq, Repr

/-- The SDK's `s3.ListObjectsV2Output`, of which only `Contents` is read. -/
structure ListObjectsV2Output where
  Contents : List SdkObject
deriving DecidableEq, Repr

/-- What the service answers to one paged listing request: the pages it delivers, in order,
and the error that ended the pagination, if one did. -/
structure PagedListing where
  pages : List ListObjectsV2Output
  err : Option Err

/-- The part of `s3iface.S3API` behind `ListObjects`: the answer to a listing of
`Bucket` and `Prefix`. -/
structure S3API where
  listing : String → String → PagedListing

/-- The SDK's pagination loop `for p.Next() { if !fn(p.Page(), !p.HasNextPage()) { break } }`. -/
def deliverPages {σ : Type} (fn : σ → ListObjectsV2Output → Bool → σ × Bool) :
    List ListObjectsV2Output → σ → σ × Bool
  | [], st => (st, true)
  | page :: rest, st =>
    let r := fn st page rest.isEmpty
    if r.2 then deliverPages fn rest r.1 else (r.1, false)

/-- The SDK's `ListObjectsV2Pages(input, fn)`: it hands each page to `fn` until `fn` answers
`false` or the pages end, and returns the pagination's error (`nil` when `fn` stopped it).
The variables `fn` captures are the state `σ`. -/
def S3API.ListObjectsV2Pages {σ : Type} (svc : S3API) (bucket pfx : String)
    (fn : σ → ListObjectsV2Output → Bool → σ × Bool) (st : σ) : σ × Option Err :=
  let r := deliverPages fn (svc.listing bucket pfx).pages st
  (r.1, if r.2 then (svc.listing bucket pfx).err else none)

/-- `s3.AwsS3Client`. -/
structure AwsS3Client where
  svc : S3API
  bucket : String

/-- The callback of `ListObjects`: `for _, obj := range page.Contents { objects = append(objects, Object{...}) }; return true`. -/
def listCallback (objects : Slice Object) (page : ListObjectsV2Output) (_lastPage : Bool) :
    Slice Object × Bool :=
  (page.Contents.foldl (fun acc obj => acc.append { Name := obj.Key, Size := obj.Size }) objects, true)

/-- `AwsS3Client.ListObjects`; `s3Prefix` is `os.Getenv("S3_PREFIX")`. -/
def AwsS3Client.ListObjects (s3Client : AwsS3Client) (s3Prefix : String) : Slice Object × Option Err :=
  let r := s3Client.svc.ListObjectsV2Pages s3Client.bucket s3Prefix listCallback (none : Slice Object)
  match r.2 with
  | some err => (none, some err)
  | none => (r.1, none)

/-! ## `main`: the fan-out loop -/

/-- What the loop `for _, obj := range objects` of `main` has done so far:
the counter `numImages` and the keys handed to `go func(key string)`, in launch order. -/
structure FanOut where
  numImages : Int
  launched : List String
deriving DecidableEq, Repr

/-- One iteration of the loop: `if utils.IsImageFile(obj.Name) && obj.Size > int64(maxImageSize) { numImages++; go func(key){...}(obj.Name) }`. -/
def fanOutStep (caseTable : Char → Char) (maxImageSize : Int) (st : FanOut) (obj : Object) : FanOut :=
  if IsImageFile caseTable obj.Name && decide (obj.Size > maxImageSize) then
    { numImages := st.numImages + 1, launched := st.launched ++ [obj.Name] }
  else st

/-- The whole loop, from `var numImages int`. -/
def fanOut (caseTable : Char → Char) (maxImageSize : Int) (objects : List Object) : FanOut :=
  objects.foldl (fanOutStep caseTable maxImageSize) { numImages := 0, launched := [] }

/-! ## Package `processor` -/

/-- File and object contents. -/
abbrev Bytes := List Nat

/-- The state outside the program that `Process` reads and changes: the local file system
(directories and regular files by path), the `PutObject` calls the store has received
(key and body, oldest first) and the calls the encoder has received (image and quality,
oldest first). -/
structure World (Img : Type) where
  dirs : List String
  files : String → Option Bytes
  puts : List (String × Bytes)
  encodes : List (Img × Int)

/-- The answers of everything `Process` calls outside the program. An `Option Err` is the
`error` a call returns (`none` is `nil`); `some (n, err)` for a copy or a write is a failure
after `n` bytes have reached the file. -/
structure Env (Img : Type) where
  /-- `time.Now().UnixNano()`. -/
  now : Int
  /-- `os.Stat` fails for another reason than the directory being absent. -/
  statDenied : Bool
  /-- `os.MkdirAll`. -/
  mkdirAll : Option Err
  /-- `os.Create` in `downloadImage`. -/
  createStaged : Option Err
  /-- The store's `GetObject`: the body of the object, or an error. -/
  getObject : String → Except Err Bytes
  /-- `io.Copy` from the body to the staged file. -/
  copyFails : Option (Nat × Err)
  /-- The decoder behind `imaging.Open`. -/
  decode : Bytes → Except Err Img
  /-- `imaging.Fit` with the Lanczos filter. -/
  fit : Img → Int → Int → Img
  /-- `imaging.Encode` as JPEG at a quality; the first argument is the number of calls made
  before this one in the same `optimizeImage`, so an encoder may answer differently each time. -/
  encode : Nat → Img → Int → Except Err Bytes
  /-- `os.Create` in `optimizeImage`. -/
  createOutput : Option Err
  /-- `outputFile.Write`. -/
  writeFails : Option (Nat × Err)
  /-- `os.Open` in `replaceImage`, on an existing file. -/
  openStaged : Option Err
  /-- The store's `PutObject`. -/
  putObject : String → Bytes → Option Err
  /-- `os.RemoveAll`. -/
  removeAll : Option Err

/-- The file system after `path` holds `content`. -/
def writeFile (files : String → Option Bytes) (path : String) (content : Bytes) : String → Option Bytes :=
  fun q => if q = path then some content else files q

/-- The file system after `path` is removed. -/
def removeFile (files : String → Option Bytes) (path : String) : String → Option Bytes :=
  fun q => if q = path then none else files q

/-- `processor.Processor`, without the store client, whose answers are in `Env`. -/
structure Processor where
  maxImageSize : Int
  localTempDir : String
  localTempPath : String
  defaultImageWidth : Int
  defaultImageHeight : Int
  initialQualityPercentage : Int
deriving DecidableEq, Repr

/-- `processor.ProcessorOptions`. -/
structure ProcessorOptions where
  LocalTempDir : String
  DefaultImageWidth : Int
  DefaultImageHeight : Int
deriving DecidableEq, Repr

/-- The package constant `initialQualityPercentage`. -/
def initialQualityPercentage : Int := 80

/-- `processor.NewProcessor`. -/
def NewProcessor (maxImageSize : Int) (options : ProcessorOptions) : Processor :=
  { maxImageSize := maxImageSize
    localTempDir := if options.LocalTempDir ≠ "" then options.LocalTempDir else "/tmp/image-optimization"
    localTempPath := ""
    defaultImageWidth := if options.DefaultImageWidth ≠ 0 then options.DefaultImageWidth else 1280
    defaultImageHeight := if options.DefaultImageHeight ≠ 0 then options.DefaultImageHeight else 720
    initialQualityPercentage := initialQualityPercentage }

/-- What a method of `Processor` leaves behind: the processor, the world and the returned error. -/
structure Ret (Img : Type) where
  proc : Processor
  world : World Img
  err : Option Err

/-- `Processor.ensureTempDirectoryExists`. -/
def ensureTempDirectoryExists {Img : Type} (env : Env Img) (p : Processor) (w : World Img) : Ret Img :=
  if p.localTempDir ∈ w.dirs then ⟨p, w, none⟩
  else if env.statDenied then ⟨p, w, none⟩
  else
    match env.mkdirAll with
    | some err => ⟨p, w, some err⟩
    | none => ⟨p, { w with dirs := p.localTempDir :: w.dirs }, none⟩

/-- `Processor.downloadImage`. -/
def downloadImage {Img : Type} (env : Env Img) (key : String) (p : Processor) (w : World Img) : Ret Img :=
  let w := (ensureTempDirectoryExists env p w).world
  let timestamp := toString env.now
  let p := { p with localTempPath := p.localTempDir ++ "/" ++ timestamp ++ ".jpg" }
  match env.createStaged with
  | some err => ⟨p, w, some err⟩
  | none =>
    let w := { w with files := writeFile w.files p.localTempPath [] }
    match env.getObject key with
    | .error err => ⟨p, w, some err⟩
    | .ok obj =>
      match env.copyFails with
      | some (n, err) => ⟨p, { w with files := writeFile w.files p.localTempPath (obj.take n) }, some err⟩
      | none => ⟨p, { w with files := writeFile w.files p.localTempPath obj }, none⟩

/-- The loop `for quality := initialQualityPercentage; len(encodedImg) > p.maxImageSize && quality > 0; quality -= 5`
of `optimizeImage`, entered at `quality` with `encodedImg` and the encoder calls made so far.
It returns the final `encodedImg` (or the encoder's error) and the calls made. -/
def reduceLoop {Img : Type} (encode : Nat → Img → Int → Except Err Bytes) (maxImageSize : Int)
    (resizedImg : Img) (quality : Int) (encodedImg : Bytes) (calls : List (Img × Int)) :
    Except Err Bytes × List (Img × Int) :=
  if (encodedImg.length : Int) > maxImageSize ∧ quality > 0 then
    match encode calls.length resizedImg quality with
    | .error err => (.error err, calls ++ [(resizedImg, quality)])
    | .ok out => reduceLoop encode maxImageSize resizedImg (quality - 5) out (calls ++ [(resizedImg, quality)])
  else (.ok encodedImg, calls)
termination_by quality.toNat
decreasing_by omega

/-- Lines 119 to 141 of `optimizeImage`: the first encoding at `initialQualityPercentage`, then,
if it is too long, the reduction loop. -/
def compress {Img : Type} (encode : Nat → Img → Int → Except Err Bytes) (maxImageSize : Int)
    (resizedImg : Img) : Except Err Bytes × List (Img × Int) :=
  match encode 0 resizedImg initialQualityPercentage with
  | .error err => (.error err, [(resizedImg, initialQualityPercentage)])
  | .ok encodedImg =>
    if (encodedImg.length : Int) > maxImageSize then
      reduceLoop encode maxImageSize resizedImg initialQualityPercentage encodedImg
        [(resizedImg, initialQualityPercentage)]
    else (.ok encodedImg, [(resizedImg, initialQualityPercentage)])

/-- `imaging.Open`: open the file and decode it. -/
def imagingOpen {Img : Type} (env : Env Img) (w : World Img) (path : String) : Except Err Img :=
  match w.files path with
  | none => .error "open: no such file or directory"
  | some content => env.decode content

/-- `Processor.optimizeImage`. -/
def optimizeImage {Img : Type} (env : Env Img) (_key : String) (p : Processor) (w : World Img) : Ret Img :=
  match imagingOpen env w p.localTempPath with
  | .error err => ⟨p, w, some err⟩
  | .ok img =>
    let resizedImg := env.fit img p.defaultImageWidth p.defaultImageHeight
    let r := compress env.encode p.maxImageSize resizedImg
    let w := { w with encodes := w.encodes ++ r.2 }
    match r.1 with
    | .error err => ⟨p, w, some err⟩
    | .ok encodedImg =>
      match env.createOutput with
      | some err => ⟨p, w, some err⟩
      | none =>
        let w := { w with files := writeFile w.files p.localTempPath [] }
        match env.writeFails with
        | some (n, err) =>
          ⟨p, { w with files := writeFile w.files p.localTempPath (encodedImg.take n) }, some err⟩
        | none => ⟨p, { w with files := writeFile w.files p.localTempPath encodedImg }, none⟩

/-- `Processor.replaceImage`. -/
def replaceImage {Img : Type} (env : Env Img) (key : String) (p : Processor) (w : World Img) : Ret Img :=
  match w.files p.localTempPath with
  | none => ⟨p, w, some "open: no such file or directory"⟩
  | some content =>
    match env.openStaged with
    | some err => ⟨p, w, some err⟩
    | none => ⟨p, { w with puts := w.puts ++ [(key, content)] }, env.putObject key content⟩

/-- `Processor.cleanUpTempData`. -/
def cleanUpTempData {Img : Type} (env : Env Img) (_key : String) (p : Processor) (w : World Img) : Ret Img :=
  match env.removeAll with
  | some err => ⟨p, w, some err⟩
  | none => ⟨p, { w with files := removeFile w.files p.localTempPath }, none⟩

/-- The body of `Process` after `defer p.cleanUpTempData(key)`: optimise, then replace. -/
def processBody {Img : Type} (env : Env Img) (key : String) (p : Processor) (w : World Img) : Ret Img :=
  let o := optimizeImage env key p w
  match o.err with
  | some optimizeErr => ⟨o.proc, o.world, some optimizeErr⟩
  | none => replaceImage env key o.proc o.world

/-- `Processor.Process`. The deferred `cleanUpTempData` runs when the body returns and its
result is discarded; a return before the `defer` statement runs nothing. -/
def Process {Img : Type} (env : Env Img) (key : String) (p : Processor) (w : World Img) : Ret Img :=
  let d := downloadImage env key p w
  match d.err with
  | some downloadErr => ⟨d.proc, d.world, some downloadErr⟩
  | none =>
    let b := processBody env key d.proc d.world
    let c := cleanUpTempData env key b.proc b.world
    ⟨c.proc, c.world, b.err⟩

/-- The qualities `5 * k, 5 * (k - 1), ..., 5`, in this order; `ladder 16` is `80, 75, ..., 5`. -/
def ladder : Nat → List Int
  | 0 => []
  | k + 1 => (5 * ((k : Int) + 1)) :: ladder k

/-- The quality levels of the reduction loop, as the specification lists them. -/
def qualityLevels : List Int := [80, 75, 70, 65, 60, 55, 50, 45, 40, 35, 30, 25, 20, 15, 10, 5]

/-- With an encoder that answers `f q` at quality `q`: the encoding at the first of the
qualities `5 * k, ..., 5` that fits the budget, and the encoding at quality 5 if none does. -/
def firstFit (f : Int → Bytes) (maxImageSize : Int) (k : Nat) : Bytes :=
  match (ladder k).find? (fun q => decide (((f q).length : Int) ≤ maxImageSize)) with
  | some q => f q
  | none => f 5

/-- The state `Process` is in after Acquire: the return of `downloadImage`. -/
def acquired {Img : Type} (env : Env Img) (key : String) (p : Processor) (w : World Img) : Ret Img :=
  downloadImage env key p w

/-- The state after Transform, had Acquire succeeded: the return of `optimizeImage`. -/
def transformed {Img : Type} (env : Env Img) (key : String) (p : Processor) (w : World Img) : Ret Img :=
  optimizeImage env key (acquired env key p w).proc (acquired env key p w).world

/-- The state after Publish, had Transform succeeded: the return of `replaceImage`. -/
def published {Img : Type} (env : Env Img) (key : String) (p : Processor) (w : World Img) : Ret Img :=
  replaceImage env key (transformed env key p w).proc (transformed env key p w).world

/-! ## `main`: tasks, waiter and the two channels

After the fan-out loop `main` starts the waiter goroutine and ranges over `errChan`.
Both channels are unbuffered, so a send completes only together with its receive; the
interleavings of the goroutines are the sequences of `Action`s that `step` accepts. -/

/-- Where a task goroutine `go func(key string)` stands. -/
inductive TaskPc where
  /-- Before its report: in `p.Process(key)`, or blocked in its channel send. -/
  | running
  /-- After `errChan <- err`, before `numImages--`. -/
  | afterSend
  /-- Returned. -/
  | returned
deriving DecidableEq, Repr

/-- A task goroutine: whether it sees `err != nil` after `Process`, and where it stands. -/
structure Task where
  failed : Bool
  pc : TaskPc
deriving DecidableEq, Repr

/-- Where the waiter goroutine `go func() { for i := 0; i < numImages; i++ { <-doneChan }; close(errChan) }()` stands. -/
inductive WaiterPc where
  /-- About to evaluate `i < numImages`. -/
  | test
  /-- Blocked in `<-doneChan`. -/
  | receive
  /-- Has run `close(errChan)` and returned. -/
  | closed
deriving DecidableEq, Repr

/-- The state of the goroutines and of the variables they share. -/
structure Sched where
  tasks : List Task
  numImages : Int
  i : Int
  waiter : WaiterPc
  /-- The errors `main` has received from `errChan` and logged. -/
  errorsLogged : Nat
  /-- The receives from `doneChan` the waiter has completed. -/
  donesReceived : Nat
  /-- The loop `for err := range errChan` has ended and `main` has logged the completion. -/
  mainFinished : Bool
  /-- A send on the closed `errChan` has aborted the program. -/
  panicked : Bool
deriving DecidableEq, Repr

/-- One atomic step of one goroutine. -/
inductive Action where
  /-- The task at index `k` sends on `errChan` and `main` receives and logs it. -/
  | sendErr (k : Nat)
  /-- The task at index `k` runs `numImages--` and returns. -/
  | decrement (k : Nat)
  /-- The task at index `k` sends on `doneChan`, the waiter receives it and runs `i++`. -/
  | sendDone (k : Nat)
  /-- The waiter evaluates `i < numImages`: it goes on to `<-doneChan`, or closes `errChan`. -/
  | waiterTest
  /-- The loop of `main` over the closed `errChan` ends; `main` logs the completion. -/
  | mainReturn
deriving DecidableEq, Repr

/-- The state when `main` reaches `for err := range errChan`: `numImages` tasks launched by the
fan-out loop, none of which has reported yet (no receiver was ready before), the waiter started. -/
def Sched.init (outcomes : List Bool) : Sched :=
  { tasks := outcomes.map (fun failed => { failed := failed, pc := TaskPc.running })
    numImages := outcomes.length
    i := 0
    waiter := WaiterPc.test
    errorsLogged := 0
    donesReceived := 0
    mainFinished := false
    panicked := false }

/-- The effect of an action, `none` when the goroutine cannot take that step in this state.
Nothing runs once `main` has returned or the program has aborted. -/
def step (s : Sched) (a : Action) : Option Sched :=
  if s.mainFinished || s.panicked then none
  else
    match a with
    | Action.sendErr k =>
      match s.tasks.get? k with
      | some { failed := true, pc := TaskPc.running } =>
        if s.waiter = WaiterPc.closed then some { s with panicked := true }
        else some { s with
          tasks := s.tasks.set k { failed := true, pc := TaskPc.afterSend }
          errorsLogged := s.errorsLogged + 1 }
      | _ => none
    | Action.decrement k =>
      match s.tasks.get? k with
      | some { failed := failed, pc := TaskPc.afterSend } =>
        some { s with
          tasks := s.tasks.set k { failed := failed, pc := TaskPc.returned }
          numImages := s.numImages - 1 }
      | _ => none
    | Action.sendDone k =>
      match s.tasks.get? k with
      | some { failed := false, pc := TaskPc.running } =>
        if s.waiter = WaiterPc.receive then
          some { s with
            tasks := s.tasks.set k { failed := false, pc := TaskPc.returned }
            i := s.i + 1
            waiter := WaiterPc.test
            donesReceived := s.donesReceived + 1 }
        else none
      | _ => none
    | Action.waiterTest =>
      if s.waiter = WaiterPc.test then
        if s.i < s.numImages then some { s with waiter := WaiterPc.receive }
        else some { s with waiter := WaiterPc.closed }
      else none
    | Action.mainReturn =>
      if s.waiter = WaiterPc.closed then some { s with mainFinished := true } else none

/-- The state after a sequence of actions, `none` if one of them cannot be taken. -/
def run (s : Sched) : List Action → Option Sched
  | [] => some s
  | a :: rest =>
    match step s a with
    | none => none
    | some t => run t rest

/-- The sum of a weight over the tasks. -/
def weigh (f : Task → Int) (l : List Task) : Int := (l.map f).sum

/-- 1 for a task that has completed its channel send. -/
def isReported (t : Task) : Int := if t.pc = TaskPc.running then 0 else 1

/-- 1 for a failed task that has run `numImages--`. -/
def failedReturned (t : Task) : Int := if t.failed = true ∧ t.pc = TaskPc.returned then 1 else 0

/-- 1 for a failed task that has sent its error. -/
def failedReported (t : Task) : Int := if t.failed = true ∧ t.pc ≠ TaskPc.running then 1 else 0

/-- 1 for a successful task that has sent its done signal. -/
def doneReturned (t : Task) : Int := if t.failed = false ∧ t.pc = TaskPc.returned then 1 else 0

/-- What holds in every state reachable from `Sched.init` with `n` tasks. -/
structure Inv (n : Nat) (s : Sched) : Prop where
  len : s.tasks.length = n
  sent : ∀ t ∈ s.tasks, t.pc = TaskPc.afterSend → t.failed = true
  num : s.numImages = (n : Int) - weigh failedReturned s.tasks
  idx : s.i = weigh doneReturned s.tasks
  errs : (s.errorsLogged : Int) = weigh failedReported s.tasks
  dones : (s.donesReceived : Int) = weigh doneReturned s.tasks
  closed : s.waiter = WaiterPc.closed → weigh isReported s.tasks = (n : Int)
  fin : s.mainFinished = true → s.waiter = WaiterPc.closed
  noPanic : s.panicked = false

/-! ## Sample inputs -/

/-- An environment in which every call succeeds. Images are their bytes, and the encoder
answers `q` zero bytes at quality `q`. -/
def sampleEnv : Env Bytes :=
  { now := 17
    statDenied := false
    mkdirAll := none
    createStaged := none
    getObject := fun _ => .ok [255, 216, 255]
    copyFails := none
    decode := fun content => .ok content
    fit := fun img _ _ => img
    encode := fun _ _ quality => .ok (List.replicate quality.toNat 0)
    createOutput := none
    writeFails := none
    openStaged := none
    putObject := fun _ _ => none
    removeAll := none }

/-- An empty file system and a store that has received no call. -/
def sampleWorld : World Bytes :=
  { dirs := [], files := fun _ => none, puts := [], encodes := [] }

/-- `NewProcessor(s3Client, 72, ProcessorOptions{})`. -/
def sampleProcessor : Processor := NewProcessor 72 { LocalTempDir := "", DefaultImageWidth := 0, DefaultImageHeight := 0 }

/-- The sample environment with a store that refuses `PutObject`. -/
def putFailsEnv : Env Bytes := { sampleEnv with putObject := fun _ _ => some "put object error" }

/-- The sample environment with a store that refuses `GetObject`. -/
def getFailsEnv : Env Bytes := { sampleEnv with getObject := fun _ => .error "get object error" }

/-- Two launched tasks, the first failing (say at `GetObject`), the second succeeding, after:
the waiter tests `0 < 2` and receives the done signal of the second task, tests `1 < 2` and
blocks in `<-doneChan`; then the first task sends its error, `main` logs it, and the task runs
`numImages--`. -/
def stuckSchedule : List Action :=
  [Action.waiterTest, Action.sendDone 1, Action.waiterTest, Action.sendErr 0, Action.decrement 0]

/-- The state `stuckSchedule` leads to. -/
def stuckState : Sched :=
  { tasks := [{ failed := true, pc := TaskPc.returned }, { failed := false, pc := TaskPc.returned }]
    numImages := 1
    i := 1
    waiter := WaiterPc.receive
    errorsLogged := 1
    donesReceived := 1
    mainFinished := false
    panicked := false }

/-- The same two tasks when the failing one has run `numImages--` before the waiter tests again. -/
def luckySchedule : List Action :=
  [Action.waiterTest, Action.sendDone 1, Action.sendErr 0, Action.decrement 0, Action.waiterTest,
    Action.mainReturn]

/-- The sample environment with a store that refuses `PutObject` and an operating system that
refuses `os.RemoveAll`. -/
def removeFailsEnv : Env Bytes := { putFailsEnv with removeAll := some "remove error" }

/-! ### Lemmas on `Ext` -/

theorem extScan_eq_scanRev (path : List Char) :
    ∀ n, n ≤ path.length → extScan path n = scanRev (path.take n).reverse (path.drop n) := by
  intro n
  induction n with
  | zero => intro _; simp [extScan, scanRev]
  | succ i ih =>
    intro h
    have hi : i < path.length := h
    have hget : path.get? i = some (path.get ⟨i, hi⟩) := List.get?_eq_get hi
    have htake : path.take (i + 1) = path.take i ++ [path.get ⟨i, hi⟩] := by
      simp [List.take_succ, hget]
    have hdrop : path.drop i = path.get ⟨i, hi⟩ :: path.drop (i + 1) := by
      simp
    rw [extScan, hget, htake]
    simp only [List.reverse_append, List.reverse_cons, List.reverse_nil, List.nil_append,
      List.singleton_append, scanRev]
    rw [ih (Nat.le_of_lt hi), hdrop]

theorem scanRev_eq (r : List Char) : ∀ suf : List Char,
    scanRev r suf =
      if '.' ∈ r.takeWhile (fun c => !IsPathSeparator c) then
        '.' :: ((r.takeWhile (fun c => !IsPathSeparator c)).takeWhile (fun c => c != '.')).reverse ++ suf
      else [] := by
  induction r with
  | nil => intro suf; simp [scanRev]
  | cons c r ih =>
    intro suf
    by_cases hs : IsPathSeparator c = true
    · simp [scanRev, hs, List.takeWhile_cons]
    · by_cases hd : c = '.'
      · subst hd
        simp [scanRev, IsPathSeparator, List.takeWhile_cons]
      · have hd2 : ¬ ('.' = c) := fun h => hd h.symm
        simp only [Bool.not_eq_true] at hs
        simp [scanRev, hs, hd, hd2, List.takeWhile_cons, ih]

/-- The library's `filepath.Ext` computes the extension the specification describes. -/
theorem Ext_eq_specExt (path : String) : Ext path = specExt path := by
  unfold Ext specExt finalElement
  rw [extScan_eq_scanRev _ _ (Nat.le_refl _)]
  simp only [List.take_length, List.drop_length, scanRev_eq, List.append_nil, List.mem_reverse,
    List.reverse_reverse]
  split <;> rfl

/-- A name that ends in a dot followed by dot-free, separator-free runes has exactly that ending as its extension. -/
theorem Ext_append_dot (stem : String) (e : List Char)
    (he : ∀ c ∈ e, IsPathSeparator c = false ∧ c ≠ '.') :
    Ext (stem ++ ⟨'.' :: e⟩) = ⟨'.' :: e⟩ := by
  rw [Ext_eq_specExt]
  unfold specExt finalElement
  have h1 : ∀ c ∈ e.reverse, (!IsPathSeparator c) = true := by
    intro c hc; simp [(he c (List.mem_reverse.mp hc)).1]
  have h2 : ∀ c ∈ e.reverse, (c != '.') = true := by
    intro c hc; simp [(he c (List.mem_reverse.mp hc)).2]
  have hsep : IsPathSeparator '.' = false := by decide
  have htw : ((stem ++ (⟨'.' :: e⟩ : String)).data.reverse.takeWhile (fun c => !IsPathSeparator c))
      = e.reverse ++ '.' :: (stem.data.reverse.takeWhile (fun c => !IsPathSeparator c)) := by
    simp only [String.data_append, List.reverse_append, List.reverse_cons, List.append_assoc,
      List.singleton_append]
    rw [List.takeWhile_append_of_pos h1]
    simp [List.takeWhile_cons, hsep]
  rw [htw]
  have htw2 : (e.reverse ++ '.' :: (stem.data.reverse.takeWhile (fun c => !IsPathSeparator c))).takeWhile
      (fun c => c != '.') = e.reverse := by
    rw [List.takeWhile_append_of_pos h2]
    simp [List.takeWhile_cons]
  simp only [List.reverse_reverse, htw2]
  simp

/-- An empty extension is never an image extension. -/
theorem IsImageFile_of_Ext_empty (caseTable : Char → Char) (path : String) (h : Ext path = "") :
    IsImageFile caseTable path = false := by
  unfold IsImageFile
  rw [h]
  rfl

/-- On a name ending in a dot and dot-free, separator-free runes, `IsImageFile` tests exactly that ending. -/
theorem IsImageFile_append_dot (caseTable : Char → Char) (stem : String) (e : List Char)
    (he : ∀ c ∈ e, IsPathSeparator c = false ∧ c ≠ '.') :
    IsImageFile caseTable (stem ++ ⟨'.' :: e⟩) =
      (ToLower caseTable ⟨'.' :: e⟩ == ".jpg" || ToLower caseTable ⟨'.' :: e⟩ == ".jpeg") := by
  unfold IsImageFile
  rw [Ext_append_dot _ _ he]

/-- C2. `IsImageFile(path)` holds exactly when the extension of `path` as the specification
describes it (the suffix from the last dot of the final path element, empty without a dot),
lower-cased, is `.jpg` or `.jpeg`. Hence, whatever precedes the ending, names ending in
`.jpg`, `.jpeg`, `.JPG`, `.JPEG` match, names ending in `.png`, `.gif`, `.bmp`, `.txt` do not,
and a name without an extension does not. -/
theorem IsImageFile_iff_lowercase_extension (caseTable : Char → Char) (path : String) :
    (IsImageFile caseTable path = true ↔
      (ToLower caseTable (specExt path) = ".jpg" ∨ ToLower caseTable (specExt path) = ".jpeg"))
    ∧ (∀ stem : String,
        IsImageFile caseTable (stem ++ ".jpg") = true ∧ IsImageFile caseTable (stem ++ ".jpeg") = true ∧
        IsImageFile caseTable (stem ++ ".JPG") = true ∧ IsImageFile caseTable (stem ++ ".JPEG") = true)
    ∧ (∀ stem : String,
        IsImageFile caseTable (stem ++ ".png") = false ∧ IsImageFile caseTable (stem ++ ".gif") = false ∧
        IsImageFile caseTable (stem ++ ".bmp") = false ∧ IsImageFile caseTable (stem ++ ".txt") = false)
    ∧ (specExt path = "" → IsImageFile caseTable path = false)
    ∧ (IsImageFile caseTable "example" = false ∧ IsImageFile caseTable "image123" = false ∧
        IsImageFile caseTable "picture-2021" = false) := by
  refine ⟨?_, ?_, ?_, ?_, ?_⟩
  · unfold IsImageFile
    rw [Ext_eq_specExt]
    simp
  · intro stem
    refine ⟨?_, ?_, ?_, ?_⟩
    · exact (IsImageFile_append_dot caseTable stem ['j', 'p', 'g'] (by decide)).trans rfl
    · exact (IsImageFile_append_dot caseTable stem ['j', 'p', 'e', 'g'] (by decide)).trans rfl
    · exact (IsImageFile_append_dot caseTable stem ['J', 'P', 'G'] (by decide)).trans rfl
    · exact (IsImageFile_append_dot caseTable stem ['J', 'P', 'E', 'G'] (by decide)).trans rfl
  · intro stem
    refine ⟨?_, ?_, ?_, ?_⟩
    · exact (IsImageFile_append_dot caseTable stem ['p', 'n', 'g'] (by decide)).trans rfl
    · exact (IsImageFile_append_dot caseTable stem ['g', 'i', 'f'] (by decide)).trans rfl
    · exact (IsImageFile_append_dot caseTable stem ['b', 'm', 'p'] (by decide)).trans rfl
    · exact (IsImageFile_append_dot caseTable stem ['t', 'x', 't'] (by decide)).trans rfl
  · intro h
    exact IsImageFile_of_Ext_empty caseTable path ((Ext_eq_specExt path).trans h)
  · exact ⟨rfl, rfl, rfl⟩

/-! ### `ListObjects` -/

/-- The objects the callback adds for one page. -/
theorem listCallback_elems (objects : Slice Object) (page : ListObjectsV2Output) (lastPage : Bool) :
    (listCallback objects page lastPage).1.elems =
        objects.elems ++ page.Contents.map (fun obj => ({ Name := obj.Key, Size := obj.Size } : Object))
      ∧ (listCallback objects page lastPage).2 = true := by
  refine ⟨?_, rfl⟩
  unfold listCallback
  simp only
  generalize page.Contents = contents
  induction contents generalizing objects with
  | nil => simp
  | cons obj rest ih =>
    rw [List.foldl_cons, ih]
    simp [Slice.append, Slice.elems]

/-- The callback never stops the pagination, so every page is delivered and added. -/
theorem deliverPages_listCallback (pages : List ListObjectsV2Output) (objects : Slice Object) :
    (deliverPages listCallback pages objects).1.elems =
        objects.elems ++
          pages.flatMap (fun page => page.Contents.map (fun obj => ({ Name := obj.Key, Size := obj.Size } : Object)))
      ∧ (deliverPages listCallback pages objects).2 = true := by
  induction pages generalizing objects with
  | nil => simp [deliverPages]
  | cons page rest ih =>
    have h := listCallback_elems objects page rest.isEmpty
    simp only [deliverPages, h.2, if_true]
    refine ⟨?_, (ih _).2⟩
    rw [(ih _).1, h.1]
    simp

/-- C9. If the paged listing call returns no error, `ListObjects` returns, in page order and then
entry order, exactly one `Object{Name: key, Size: size}` per listed entry, and a nil error;
if the call returns an error `e`, `ListObjects` returns the nil slice and `e`, whatever pages
were delivered to the callback before. -/
theorem ListObjects_result (s3Client : AwsS3Client) (s3Prefix : String) :
    ((s3Client.svc.listing s3Client.bucket s3Prefix).err = none →
        (s3Client.ListObjects s3Prefix).2 = none ∧
        (s3Client.ListObjects s3Prefix).1.elems =
          (s3Client.svc.listing s3Client.bucket s3Prefix).pages.flatMap
            (fun page => page.Contents.map (fun obj => ({ Name := obj.Key, Size := obj.Size } : Object))))
    ∧ (∀ e : Err, (s3Client.svc.listing s3Client.bucket s3Prefix).err = some e →
        s3Client.ListObjects s3Prefix = (none, some e)) := by
  have h := deliverPages_listCallback (s3Client.svc.listing s3Client.bucket s3Prefix).pages none
  constructor
  · intro herr
    simp only [AwsS3Client.ListObjects, S3API.ListObjectsV2Pages, h.2, if_true, herr]
    refine ⟨trivial, ?_⟩
    rw [h.1]
    simp [Slice.elems]
  · intro e herr
    simp only [AwsS3Client.ListObjects, S3API.ListObjectsV2Pages, h.2, if_true, herr]

/-! ### The fan-out loop -/

/-- The loop from any state: it adds the qualifying names, in order, and counts them. -/
theorem foldl_fanOutStep (caseTable : Char → Char) (maxImageSize : Int) (objects : List Object)
    (st : FanOut) :
    (objects.foldl (fanOutStep caseTable maxImageSize) st).launched =
        st.launched ++ (objects.filter
          (fun obj => IsImageFile caseTable obj.Name && decide (obj.Size > maxImageSize))).map Object.Name
      ∧ (objects.foldl (fanOutStep caseTable maxImageSize) st).numImages =
        st.numImages + ((objects.filter
          (fun obj => IsImageFile caseTable obj.Name && decide (obj.Size > maxImageSize))).length : Int) := by
  induction objects generalizing st with
  | nil => simp
  | cons obj rest ih =>
    rw [List.foldl_cons]
    by_cases hq : (IsImageFile caseTable obj.Name && decide (obj.Size > maxImageSize)) = true
    · have hs : fanOutStep caseTable maxImageSize st obj =
          { numImages := st.numImages + 1, launched := st.launched ++ [obj.Name] } := by
        simp only [fanOutStep, hq, if_true]
      rw [hs, (ih _).1, (ih _).2]
      simp only [List.filter_cons, hq, if_true]
      constructor
      · simp
      · simp only [List.length_cons]; push_cast; ring
    · have hs : fanOutStep caseTable maxImageSize st obj = st := by
        simp only [fanOutStep, hq, if_false, Bool.false_eq_true]
      rw [hs, (ih _).1, (ih _).2]
      simp only [List.filter_cons, hq, if_false, Bool.false_eq_true]
      simp

/-- C1. For every list of objects and every `maxImageSize`, the keys for which the fan-out loop
launches a task are exactly the names of the listed objects with `IsImageFile(name)` and
`Size > maxImageSize`, in list order and one launch per qualifying entry; `numImages` after the
loop is the number of qualifying entries; every launch is for an entry with a recognised
extension and a size strictly above `maxImageSize`. -/
theorem fanOut_launches_exactly_qualifying (caseTable : Char → Char) (maxImageSize : Int)
    (objects : List Object) :
    (fanOut caseTable maxImageSize objects).launched =
        (objects.filter
          (fun obj => IsImageFile caseTable obj.Name && decide (obj.Size > maxImageSize))).map Object.Name
    ∧ (fanOut caseTable maxImageSize objects).numImages =
        ((objects.filter
          (fun obj => IsImageFile caseTable obj.Name && decide (obj.Size > maxImageSize))).length : Int)
    ∧ (∀ key ∈ (fanOut caseTable maxImageSize objects).launched,
        ∃ obj ∈ objects, obj.Name = key ∧ IsImageFile caseTable obj.Name = true ∧ obj.Size > maxImageSize)
    ∧ ((∀ obj ∈ objects, obj.Size ≤ maxImageSize ∨ IsImageFile caseTable obj.Name = false) →
        (fanOut caseTable maxImageSize objects).launched = []) := by
  have h := foldl_fanOutStep caseTable maxImageSize objects { numImages := 0, launched := [] }
  have hl : (fanOut caseTable maxImageSize objects).launched =
      (objects.filter
        (fun obj => IsImageFile caseTable obj.Name && decide (obj.Size > maxImageSize))).map Object.Name := by
    simpa [fanOut] using h.1
  refine ⟨hl, by simpa [fanOut] using h.2, ?_, ?_⟩
  · intro key hkey
    rw [hl, List.mem_map] at hkey
    obtain ⟨obj, hobj, hname⟩ := hkey
    rw [List.mem_filter] at hobj
    have hq := hobj.2
    simp only [Bool.and_eq_true, decide_eq_true_eq] at hq
    exact ⟨obj, hobj.1, hname, hq.1, hq.2⟩
  · intro hall
    rw [hl, List.map_eq_nil_iff, List.filter_eq_nil_iff]
    intro obj hobj
    rcases hall obj hobj with hsz | himg
    · simp only [Bool.and_eq_true, decide_eq_true_eq, not_and, not_lt]
      intro _; exact hsz
    · simp [himg]

/-! ### The convergence loop of `optimizeImage` -/

theorem ladder_sixteen :
    ladder 16 = [80, 75, 70, 65, 60, 55, 50, 45, 40, 35, 30, 25, 20, 15, 10, 5] := by
  simp [ladder]

/-- The loop neither runs nor changes anything at quality `0`. -/
theorem reduceLoop_zero {Img : Type} (encode : Nat → Img → Int → Except Err Bytes) (maxImageSize : Int)
    (resizedImg : Img) (encodedImg : Bytes) (calls : List (Img × Int)) :
    reduceLoop encode maxImageSize resizedImg 0 encodedImg calls = (.ok encodedImg, calls) := by
  rw [reduceLoop]
  simp

/-- The loop does not run when the size is within the budget. -/
theorem reduceLoop_fits {Img : Type} (encode : Nat → Img → Int → Except Err Bytes) (maxImageSize : Int)
    (resizedImg : Img) (quality : Int) (encodedImg : Bytes) (calls : List (Img × Int))
    (h : (encodedImg.length : Int) ≤ maxImageSize) :
    reduceLoop encode maxImageSize resizedImg quality encodedImg calls = (.ok encodedImg, calls) := by
  rw [reduceLoop]
  have : ¬ ((encodedImg.length : Int) > maxImageSize) := not_lt.mpr h
  simp [this]

/-- One iteration of the loop at a positive quality with a size above the budget. -/
theorem reduceLoop_iterate {Img : Type} (encode : Nat → Img → Int → Except Err Bytes) (maxImageSize : Int)
    (resizedImg : Img) (quality : Int) (encodedImg : Bytes) (calls : List (Img × Int))
    (h : (encodedImg.length : Int) > maxImageSize) (hq : quality > 0) :
    reduceLoop encode maxImageSize resizedImg quality encodedImg calls =
      match encode calls.length resizedImg quality with
      | .error err => (.error err, calls ++ [(resizedImg, quality)])
      | .ok out =>
        reduceLoop encode maxImageSize resizedImg (quality - 5) out (calls ++ [(resizedImg, quality)]) := by
  rw [reduceLoop]
  simp [h, hq]

/-- Entered at quality `5 * k`, the loop calls the encoder on the same image at an initial
segment of `5 * k, 5 * (k - 1), ..., 5`. -/
theorem reduceLoop_calls {Img : Type} (encode : Nat → Img → Int → Except Err Bytes) (maxImageSize : Int)
    (resizedImg : Img) (k : Nat) : ∀ (encodedImg : Bytes) (calls : List (Img × Int)),
    ∃ more : List (Img × Int),
      (reduceLoop encode maxImageSize resizedImg (5 * (k : Int)) encodedImg calls).2 = calls ++ more ∧
      more <+: (ladder k).map (fun q => (resizedImg, q)) := by
  induction k with
  | zero =>
    intro encodedImg calls
    refine ⟨[], ?_, List.nil_prefix⟩
    simp [reduceLoop_zero]
  | succ k ih =>
    intro encodedImg calls
    by_cases h : (encodedImg.length : Int) > maxImageSize
    · have hq : (5 * ((k + 1 : Nat) : Int)) > 0 := by push_cast; omega
      rw [reduceLoop_iterate _ _ _ _ _ _ h hq]
      have hstep : (5 * ((k + 1 : Nat) : Int)) - 5 = 5 * (k : Int) := by push_cast; ring
      cases henc : encode calls.length resizedImg (5 * ((k + 1 : Nat) : Int)) with
      | error err =>
        refine ⟨[(resizedImg, 5 * ((k + 1 : Nat) : Int))], rfl, ?_⟩
        simp only [ladder, List.map_cons]
        push_cast
        exact List.prefix_iff_eq_append.mpr (by simp)
      | ok out =>
        simp only [hstep]
        obtain ⟨more, hm, hp⟩ := ih out (calls ++ [(resizedImg, 5 * ((k + 1 : Nat) : Int))])
        refine ⟨(resizedImg, 5 * ((k + 1 : Nat) : Int)) :: more, ?_, ?_⟩
        · rw [hm]; simp
        · simp only [ladder, List.map_cons]
          push_cast
          exact List.cons_prefix_cons.mpr ⟨rfl, hp⟩
    · refine ⟨[], ?_, List.nil_prefix⟩
      rw [reduceLoop_fits _ _ _ _ _ _ (not_lt.mp h)]
      simp

/-- The encoder calls of lines 119 to 141 are an initial segment of
`80, 80, 75, 70, ..., 5`, all on the resized image: the first call at 80, then the loop from 80. -/
theorem compress_calls {Img : Type} (encode : Nat → Img → Int → Except Err Bytes) (maxImageSize : Int)
    (resizedImg : Img) :
    (compress encode maxImageSize resizedImg).2 <+:
      ((80 : Int) :: ladder 16).map (fun q => (resizedImg, q)) := by
  unfold compress
  cases henc : encode 0 resizedImg initialQualityPercentage with
  | error err =>
    simp only [List.map_cons, initialQualityPercentage]
    exact List.prefix_iff_eq_append.mpr (by simp)
  | ok encodedImg =>
    simp only
    split
    · obtain ⟨more, hm, hp⟩ := reduceLoop_calls encode maxImageSize resizedImg 16 encodedImg
        [(resizedImg, initialQualityPercentage)]
      have h80 : initialQualityPercentage = 5 * ((16 : Nat) : Int) := by decide
      rw [← h80] at hm
      rw [hm]
      simp only [List.map_cons, initialQualityPercentage, List.singleton_append]
      exact List.cons_prefix_cons.mpr ⟨rfl, hp⟩
    · simp only [List.map_cons, initialQualityPercentage]
      exact List.prefix_iff_eq_append.mpr (by simp)

theorem firstFit_succ_of_fits (f : Int → Bytes) (maxImageSize : Int) (k : Nat)
    (h : ((f (5 * ((k : Int) + 1))).length : Int) ≤ maxImageSize) :
    firstFit f maxImageSize (k + 1) = f (5 * ((k : Int) + 1)) := by
  unfold firstFit
  rw [ladder, List.find?_cons_of_pos _ (by simpa using h)]

theorem firstFit_succ_of_exceeds (f : Int → Bytes) (maxImageSize : Int) (k : Nat)
    (h : ¬ ((f (5 * ((k : Int) + 1))).length : Int) ≤ maxImageSize) :
    firstFit f maxImageSize (k + 1) = firstFit f maxImageSize k := by
  unfold firstFit
  rw [ladder, List.find?_cons_of_neg _ (by simpa using h)]

theorem firstFit_one (f : Int → Bytes) (maxImageSize : Int) : firstFit f maxImageSize 1 = f 5 := by
  by_cases h : ((f (5 * (((0 : Nat) : Int) + 1))).length : Int) ≤ maxImageSize
  · rw [firstFit_succ_of_fits f maxImageSize 0 h]; rfl
  · rw [firstFit_succ_of_exceeds f maxImageSize 0 h]; rfl

/-- With a deterministic encoder that never fails, the loop entered above the budget at quality
`5 * (k + 1)` ends with the first fitting encoding down the ladder, or with the one at quality 5. -/
theorem reduceLoop_deterministic {Img : Type} (encode : Nat → Img → Int → Except Err Bytes)
    (maxImageSize : Int) (resizedImg : Img) (f : Int → Bytes)
    (henc : ∀ n q, encode n resizedImg q = .ok (f q)) (k : Nat) :
    ∀ (encodedImg : Bytes) (calls : List (Img × Int)), (encodedImg.length : Int) > maxImageSize →
      (reduceLoop encode maxImageSize resizedImg (5 * ((k : Int) + 1)) encodedImg calls).1 =
        .ok (firstFit f maxImageSize (k + 1)) := by
  induction k with
  | zero =>
    intro encodedImg calls h
    rw [reduceLoop_iterate _ _ _ _ _ _ h (by decide), henc]
    have h0 : (5 * (((0 : Nat) : Int) + 1)) - 5 = 0 := by decide
    simp only [h0, reduceLoop_zero]
    rw [show (0 + 1 : Nat) = 1 from rfl, firstFit_one]
    rfl
  | succ k ih =>
    intro encodedImg calls h
    have hq : (5 * (((k + 1 : Nat) : Int) + 1)) > 0 := by push_cast; omega
    have hstep : (5 * (((k + 1 : Nat) : Int) + 1)) - 5 = 5 * ((k : Int) + 1) := by push_cast; ring
    rw [reduceLoop_iterate _ _ _ _ _ _ h hq, henc]
    simp only [hstep]
    by_cases hfit : ((f (5 * (((k + 1 : Nat) : Int) + 1))).length : Int) ≤ maxImageSize
    · rw [reduceLoop_fits _ _ _ _ _ _ hfit, firstFit_succ_of_fits f maxImageSize (k + 1) hfit]
    · rw [ih _ _ (not_le.mp hfit), firstFit_succ_of_exceeds f maxImageSize (k + 1) hfit]

/-- In a strictly decreasing list, the first element with a property is the greatest with it. -/
theorem find_greatest (P : Int → Bool) : ∀ (l : List Int), l.Pairwise (fun a b => a > b) →
    ∀ q ∈ l, P q = true → (∀ q' ∈ l, q < q' → P q' = false) → l.find? P = some q := by
  intro l
  induction l with
  | nil => intro _ q hq; cases hq
  | cons a t ih =>
    intro hp q hq hP hmax
    rw [List.pairwise_cons] at hp
    rcases List.mem_cons.mp hq with rfl | hqt
    · simp [List.find?_cons, hP]
    · have ha : P a = false := hmax a (List.mem_cons_self _ _) (hp.1 q hqt)
      rw [List.find?_cons, ha]
      exact ih hp.2 q hqt hP (fun q' hq' hlt => hmax q' (List.mem_cons_of_mem _ hq') hlt)

/-- With a deterministic encoder that never fails, lines 119 to 141 make the choice the
specification describes. -/
theorem compress_deterministic {Img : Type} (encode : Nat → Img → Int → Except Err Bytes)
    (maxImageSize : Int) (resizedImg : Img) (f : Int → Bytes)
    (henc : ∀ n q, encode n resizedImg q = .ok (f q)) :
    ∃ out, (compress encode maxImageSize resizedImg).1 = .ok out ∧
      (((f 80).length : Int) ≤ maxImageSize → out = f 80) ∧
      (((f 80).length : Int) > maxImageSize → ∀ q ∈ qualityLevels, ((f q).length : Int) ≤ maxImageSize →
        (∀ q' ∈ qualityLevels, q < q' → ((f q').length : Int) > maxImageSize) → out = f q) ∧
      ((∀ q ∈ qualityLevels, ((f q).length : Int) > maxImageSize) → out = f 5) := by
  have hlad : ladder 16 = qualityLevels := ladder_sixteen
  unfold compress
  rw [henc]
  simp only [initialQualityPercentage]
  by_cases h80 : ((f 80).length : Int) > maxImageSize
  · have hloop := reduceLoop_deterministic encode maxImageSize resizedImg f henc 15 (f 80)
      [(resizedImg, 80)] h80
    have h5 : (5 * (((15 : Nat) : Int) + 1)) = 80 := by decide
    rw [h5] at hloop
    refine ⟨firstFit f maxImageSize 16, ?_, ?_, ?_, ?_⟩
    · simp only [h80, if_true]; exact hloop
    · intro hle; exact absurd h80 (not_lt.mpr hle)
    · intro _ q hq hfit hmax
      unfold firstFit
      rw [hlad, find_greatest _ qualityLevels (by decide) q hq (by simpa using hfit)
        (fun q' hq' hlt => by simpa using hmax q' hq' hlt)]
    · intro hnone
      unfold firstFit
      rw [hlad]
      have : qualityLevels.find? (fun q => decide (((f q).length : Int) ≤ maxImageSize)) = none := by
        rw [List.find?_eq_none]
        intro q hq
        simpa using hnone q hq
      rw [this]
  · refine ⟨f 80, ?_, ?_, ?_, ?_⟩
    · simp only [h80, if_false]
    · intro _; rfl
    · intro hgt; exact absurd hgt h80
    · intro hnone; exact absurd (hnone 80 (by decide)) h80

/-! ### `Process` and its steps -/

theorem ensureTempDirectoryExists_frame {Img : Type} (env : Env Img) (p : Processor) (w : World Img) :
    (ensureTempDirectoryExists env p w).world.puts = w.puts ∧
    (ensureTempDirectoryExists env p w).world.files = w.files ∧
    (ensureTempDirectoryExists env p w).world.encodes = w.encodes := by
  unfold ensureTempDirectoryExists
  split
  · exact ⟨rfl, rfl, rfl⟩
  · split
    · exact ⟨rfl, rfl, rfl⟩
    · split <;> exact ⟨rfl, rfl, rfl⟩

/-- `downloadImage` calls neither the store's `PutObject` nor the encoder. -/
theorem downloadImage_frame {Img : Type} (env : Env Img) (key : String) (p : Processor) (w : World Img) :
    (downloadImage env key p w).world.puts = w.puts ∧
    (downloadImage env key p w).world.encodes = w.encodes := by
  have h := ensureTempDirectoryExists_frame env p w
  unfold downloadImage
  simp only
  split
  · exact ⟨h.1, h.2.2⟩
  · split
    · exact ⟨h.1, h.2.2⟩
    · split <;> exact ⟨h.1, h.2.2⟩

/-- After a successful `downloadImage` the staged file exists. -/
theorem downloadImage_staged {Img : Type} (env : Env Img) (key : String) (p : Processor) (w : World Img)
    (h : (downloadImage env key p w).err = none) :
    ∃ content, (downloadImage env key p w).world.files (downloadImage env key p w).proc.localTempPath
      = some content := by
  revert h
  unfold downloadImage
  simp only
  split
  · intro h; cases h
  · split
    · intro h; cases h
    · split
      · intro h; cases h
      · rename_i obj _ _ _
        intro _; exact ⟨obj, by simp [writeFile]⟩

/-- `optimizeImage` leaves the processor and the store alone. -/
theorem optimizeImage_frame {Img : Type} (env : Env Img) (key : String) (p : Processor) (w : World Img) :
    (optimizeImage env key p w).proc = p ∧ (optimizeImage env key p w).world.puts = w.puts := by
  unfold optimizeImage
  split
  · exact ⟨rfl, rfl⟩
  · simp only
    split
    · exact ⟨rfl, rfl⟩
    · split
      · exact ⟨rfl, rfl⟩
      · split <;> exact ⟨rfl, rfl⟩

/-- The encoder calls of `optimizeImage`: none if the staged file cannot be opened and decoded,
else those of lines 119 to 141 on the image resized once. -/
theorem optimizeImage_encodes {Img : Type} (env : Env Img) (key : String) (p : Processor) (w : World Img) :
    (optimizeImage env key p w).world.encodes =
      match imagingOpen env w p.localTempPath with
      | .error _ => w.encodes
      | .ok img => w.encodes ++
          (compress env.encode p.maxImageSize (env.fit img p.defaultImageWidth p.defaultImageHeight)).2 := by
  unfold optimizeImage
  split
  · rfl
  · simp only
    split
    · rfl
    · split
      · rfl
      · split <;> rfl

/-- `replaceImage` leaves the processor alone and calls `PutObject` at most once, with the
given key and the content of the staged file. -/
theorem replaceImage_puts {Img : Type} (env : Env Img) (key : String) (p : Processor) (w : World Img) :
    (replaceImage env key p w).proc = p ∧
    ∃ l : List (String × Bytes), (replaceImage env key p w).world.puts = w.puts ++ l ∧ l.length ≤ 1 ∧
      ∀ x ∈ l, x.1 = key ∧ w.files p.localTempPath = some x.2 := by
  unfold replaceImage
  split
  · exact ⟨rfl, [], by simp, by simp, by simp⟩
  · split
    · exact ⟨rfl, [], by simp, by simp, by simp⟩
    · rename_i content hc _ _
      refine ⟨rfl, [(key, content)], rfl, by simp, ?_⟩
      intro x hx
      rw [List.mem_singleton] at hx
      subst hx
      exact ⟨rfl, hc⟩

/-- `cleanUpTempData` leaves the processor and the store alone; when `os.RemoveAll` succeeds the
staged file is gone. -/
theorem cleanUpTempData_spec {Img : Type} (env : Env Img) (key : String) (p : Processor) (w : World Img) :
    (cleanUpTempData env key p w).proc = p ∧ (cleanUpTempData env key p w).world.puts = w.puts ∧
    (env.removeAll = none → (cleanUpTempData env key p w).world.files p.localTempPath = none) := by
  unfold cleanUpTempData
  split
  · rename_i err h
    exact ⟨rfl, rfl, fun h2 => by rw [h2] at h; cases h⟩
  · exact ⟨rfl, rfl, fun _ => by simp [removeFile]⟩

/-- When `os.RemoveAll` fails, `cleanUpTempData` leaves the world as it was. -/
theorem cleanUpTempData_of_error {Img : Type} (env : Env Img) (key : String) (p : Processor)
    (w : World Img) (h : env.removeAll ≠ none) : (cleanUpTempData env key p w).world = w := by
  unfold cleanUpTempData
  split
  · rfl
  · rename_i hnone
    exact absurd hnone h

/-- `optimizeImage` never removes the staged file. -/
theorem optimizeImage_keeps_file {Img : Type} (env : Env Img) (key : String) (p : Processor)
    (w : World Img) (h : w.files p.localTempPath ≠ none) :
    (optimizeImage env key p w).world.files p.localTempPath ≠ none := by
  unfold optimizeImage
  split
  · exact h
  · simp only
    split
    · exact h
    · split
      · exact h
      · split <;> simp [writeFile]

/-- `replaceImage` leaves the file system alone. -/
theorem replaceImage_files {Img : Type} (env : Env Img) (key : String) (p : Processor) (w : World Img) :
    (replaceImage env key p w).world.files = w.files := by
  unfold replaceImage
  split
  · rfl
  · split <;> rfl

/-! ### The claims on `optimizeImage` -/

theorem ladder_bounds : ∀ q ∈ (80 : Int) :: ladder 16, 0 < q ∧ q ≤ 80 := by
  rw [ladder_sixteen]
  decide

/-- C3. Whatever the staged file, the budget and the encoder (failing or not, answering the
same or not from call to call), `optimizeImage` returns after at most 17 encoder calls in
total, the first one included, and every quality it passes to the encoder is strictly
positive (and at most 80). -/
theorem optimizeImage_at_most_17_encodings {Img : Type} (env : Env Img) (key : String)
    (p : Processor) (w : World Img) :
    ∃ calls : List (Img × Int),
      (optimizeImage env key p w).world.encodes = w.encodes ++ calls ∧
      calls.length ≤ 17 ∧ ∀ c ∈ calls, 0 < c.2 ∧ c.2 ≤ 80 := by
  rw [optimizeImage_encodes]
  cases imagingOpen env w p.localTempPath with
  | error err => exact ⟨[], by simp, by simp, by simp⟩
  | ok img =>
    have hp := compress_calls env.encode p.maxImageSize
      (env.fit img p.defaultImageWidth p.defaultImageHeight)
    refine ⟨_, rfl, ?_, ?_⟩
    · have := hp.length_le
      simpa [ladder_sixteen] using this
    · intro c hc
      have hmem := hp.subset hc
      rw [List.mem_map] at hmem
      obtain ⟨q, hq, rfl⟩ := hmem
      exact ladder_bounds q hq

/-- C10, evaluated: with a budget of 72 bytes and an encoder answering `q` bytes at quality `q`,
the first encoding at quality 80 is too long and the next call is at quality 80 again, on the
same image; only from there on does each call lower the quality by 5. -/
theorem Process_encodes_quality_80_twice :
    (Process sampleEnv "b.jpg" sampleProcessor sampleWorld).world.encodes =
      [([255, 216, 255], 80), ([255, 216, 255], 80), ([255, 216, 255], 75), ([255, 216, 255], 70)] := by
  simp [Process, processBody, downloadImage, optimizeImage, replaceImage, cleanUpTempData,
    ensureTempDirectoryExists, imagingOpen, writeFile, removeFile,
    compress, sampleEnv, sampleWorld, sampleProcessor, NewProcessor, initialQualityPercentage, reduceLoop]

/-- C4. With the staged file opened and decoded, a deterministic encoder that never fails
(`f q` at quality `q` on the resized image) and the file creation and write succeeding,
`optimizeImage` returns no error and leaves in the staged file: the quality-80 encoding if it
fits the budget; otherwise the encoding at the greatest quality among 80, 75, ..., 5 that fits;
and the encoding at quality 5 if none fits. -/
theorem optimizeImage_writes_best_fit {Img : Type} (env : Env Img) (key : String) (p : Processor)
    (w : World Img) (img : Img) (f : Int → Bytes)
    (hopen : imagingOpen env w p.localTempPath = .ok img)
    (henc : ∀ n q, env.encode n (env.fit img p.defaultImageWidth p.defaultImageHeight) q = .ok (f q))
    (hcreate : env.createOutput = none) (hwrite : env.writeFails = none) :
    ∃ out, (optimizeImage env key p w).err = none ∧
      (optimizeImage env key p w).world.files p.localTempPath = some out ∧
      (((f 80).length : Int) ≤ p.maxImageSize → out = f 80) ∧
      (((f 80).length : Int) > p.maxImageSize →
        ∀ q ∈ qualityLevels, ((f q).length : Int) ≤ p.maxImageSize →
          (∀ q' ∈ qualityLevels, q < q' → ((f q').length : Int) > p.maxImageSize) → out = f q) ∧
      ((∀ q ∈ qualityLevels, ((f q).length : Int) > p.maxImageSize) → out = f 5) := by
  obtain ⟨out, hout, hA, hB, hC⟩ := compress_deterministic env.encode p.maxImageSize
    (env.fit img p.defaultImageWidth p.defaultImageHeight) f henc
  refine ⟨out, ?_, ?_, hA, hB, hC⟩
  · unfold optimizeImage
    simp only [hopen, hout, hcreate, hwrite]
  · unfold optimizeImage
    simp only [hopen, hout, hcreate, hwrite]
    simp [writeFile]

/-- The budget of 72 bytes with the sample encoder: 80 and 75 bytes are too long, so the staged
file ends with the 70 bytes of quality 70, and no error. -/
theorem optimizeImage_writes_best_fit_witness :
    (optimizeImage sampleEnv "b.jpg" (acquired sampleEnv "b.jpg" sampleProcessor sampleWorld).proc
        (acquired sampleEnv "b.jpg" sampleProcessor sampleWorld).world).err = none ∧
    (optimizeImage sampleEnv "b.jpg" (acquired sampleEnv "b.jpg" sampleProcessor sampleWorld).proc
        (acquired sampleEnv "b.jpg" sampleProcessor sampleWorld).world).world.files
      "/tmp/image-optimization/17.jpg" = some (List.replicate 70 0) := by
  obtain ⟨out, herr, hfile, _, hB, _⟩ := optimizeImage_writes_best_fit sampleEnv "b.jpg"
    (acquired sampleEnv "b.jpg" sampleProcessor sampleWorld).proc
    (acquired sampleEnv "b.jpg" sampleProcessor sampleWorld).world
    [255, 216, 255] (fun q => List.replicate q.toNat 0) rfl (fun _ _ => rfl) rfl rfl
  have h70 : out = List.replicate 70 0 := hB (by decide) 70 (by decide) (by decide) (by decide)
  rw [h70] at hfile
  exact ⟨herr, hfile⟩

/-! ### The claims on `Process` -/

/-- `Process` when Acquire succeeds: the body runs, then the deferred clean-up, whose result
is dropped. -/
theorem Process_of_acquired {Img : Type} (env : Env Img) (key : String) (p : Processor) (w : World Img)
    (h : (acquired env key p w).err = none) :
    Process env key p w =
      ⟨(cleanUpTempData env key (processBody env key (acquired env key p w).proc (acquired env key p w).world).proc
          (processBody env key (acquired env key p w).proc (acquired env key p w).world).world).proc,
        (cleanUpTempData env key (processBody env key (acquired env key p w).proc (acquired env key p w).world).proc
          (processBody env key (acquired env key p w).proc (acquired env key p w).world).world).world,
        (processBody env key (acquired env key p w).proc (acquired env key p w).world).err⟩ := by
  unfold acquired at h
  simp only [Process, acquired, h]

/-- `Process` when Acquire fails: it returns at once, before the `defer` statement. -/
theorem Process_of_not_acquired {Img : Type} (env : Env Img) (key : String) (p : Processor) (w : World Img)
    (e : Err) (h : (acquired env key p w).err = some e) :
    Process env key p w = ⟨(acquired env key p w).proc, (acquired env key p w).world, some e⟩ := by
  unfold acquired at h
  simp only [Process, acquired, h]

/-- The body of `Process` in terms of the states after Transform and after Publish. -/
theorem processBody_eq {Img : Type} (env : Env Img) (key : String) (p : Processor) (w : World Img) :
    processBody env key (acquired env key p w).proc (acquired env key p w).world =
      match (transformed env key p w).err with
      | some optimizeErr => ⟨(transformed env key p w).proc, (transformed env key p w).world, some optimizeErr⟩
      | none => published env key p w := by
  rfl

/-- The body of `Process` never changes the processor. -/
theorem processBody_proc {Img : Type} (env : Env Img) (key : String) (p : Processor) (w : World Img) :
    (processBody env key (acquired env key p w).proc (acquired env key p w).world).proc =
      (acquired env key p w).proc := by
  have ht : (transformed env key p w).proc = (acquired env key p w).proc :=
    (optimizeImage_frame env key _ _).1
  have hp : (published env key p w).proc = (transformed env key p w).proc :=
    (replaceImage_puts env key _ _).1
  rw [processBody_eq]
  split
  · exact ht
  · exact hp.trans ht

/-- Once Acquire has succeeded, whatever happens next (success, or failure at Transform or at
Publish), the staged file is gone when `Process` returns, provided `os.RemoveAll` does its work. -/
theorem Process_removes_staged_file_of_acquired {Img : Type} (env : Env Img) (key : String)
    (p : Processor) (w : World Img) (hacq : (acquired env key p w).err = none)
    (hrm : env.removeAll = none) :
    (Process env key p w).world.files (acquired env key p w).proc.localTempPath = none := by
  have hclean := cleanUpTempData_spec env key
    (processBody env key (acquired env key p w).proc (acquired env key p w).world).proc
    (processBody env key (acquired env key p w).proc (acquired env key p w).world).world
  have hproc := processBody_proc env key p w
  rw [Process_of_acquired env key p w hacq]
  have := hclean.2.2 hrm
  simp only
  rw [hproc] at this ⊢
  exact this

/-- When `os.Create` succeeds and `GetObject` fails, `Process` returns the error of `GetObject`
and the file it created is still there: the return precedes the `defer` statement. -/
theorem Process_keeps_staged_file_of_GetObject_error {Img : Type} (env : Env Img) (key : String)
    (p : Processor) (w : World Img) (e : Err) (hcreate : env.createStaged = none)
    (hget : env.getObject key = .error e) :
    (Process env key p w).err = some e ∧
    (Process env key p w).world.files (Process env key p w).proc.localTempPath = some [] := by
  have hd : downloadImage env key p w =
      ⟨{ p with localTempPath := p.localTempDir ++ "/" ++ toString env.now ++ ".jpg" },
        { (ensureTempDirectoryExists env p w).world with
          files := writeFile (ensureTempDirectoryExists env p w).world.files
            (p.localTempDir ++ "/" ++ toString env.now ++ ".jpg") [] },
        some e⟩ := by
    simp only [downloadImage, hcreate, hget]
  simp only [Process, hd]
  exact ⟨trivial, by simp [writeFile]⟩

/-- The body of `Process` never removes the staged file. -/
theorem processBody_keeps_file {Img : Type} (env : Env Img) (key : String) (p : Processor)
    (w : World Img) (hacq : (acquired env key p w).err = none) :
    (processBody env key (acquired env key p w).proc (acquired env key p w).world).world.files
      (acquired env key p w).proc.localTempPath ≠ none := by
  obtain ⟨content, hstaged⟩ := downloadImage_staged env key p w hacq
  have hex : (acquired env key p w).world.files (acquired env key p w).proc.localTempPath ≠ none := by
    unfold acquired
    rw [hstaged]
    exact Option.some_ne_none _
  have ht : (transformed env key p w).world.files (acquired env key p w).proc.localTempPath ≠ none :=
    optimizeImage_keeps_file env key _ _ hex
  rw [processBody_eq]
  split
  · exact ht
  · unfold published
    rw [replaceImage_files]
    exact ht

/-- C5, as amended. If `Process(key)` succeeds at Acquire and then fails with `e` at Transform
(`optimizeImage`) or at Publish (`replaceImage`), then `Process` returns `e`; the staged file,
which existed after Acquire, does not exist in the file system `Process` leaves behind when
`os.RemoveAll` succeeds; and when `os.RemoveAll` fails, its error is dropped by the `defer` and
the staged file is still there. -/
theorem Process_failure_removes_staged_file {Img : Type} (env : Env Img) (key : String)
    (p : Processor) (w : World Img) (e : Err)
    (hacq : (acquired env key p w).err = none)
    (hfail : (transformed env key p w).err = some e ∨
      ((transformed env key p w).err = none ∧ (published env key p w).err = some e)) :
    (Process env key p w).err = some e ∧
    (Process env key p w).proc.localTempPath = (acquired env key p w).proc.localTempPath ∧
    (acquired env key p w).world.files (acquired env key p w).proc.localTempPath ≠ none ∧
    (env.removeAll = none →
      (Process env key p w).world.files (acquired env key p w).proc.localTempPath = none) ∧
    (env.removeAll ≠ none →
      (Process env key p w).world.files (acquired env key p w).proc.localTempPath ≠ none) := by
  have hclean := cleanUpTempData_spec env key
    (processBody env key (acquired env key p w).proc (acquired env key p w).world).proc
    (processBody env key (acquired env key p w).proc (acquired env key p w).world).world
  have hproc := processBody_proc env key p w
  obtain ⟨content, hstaged⟩ := downloadImage_staged env key p w hacq
  refine ⟨?_, ?_, ?_, ?_, ?_⟩
  · rw [Process_of_acquired env key p w hacq]
    simp only
    rw [processBody_eq]
    rcases hfail with h | ⟨h1, h2⟩
    · simp only [h]
    · simp only [h1, h2]
  · rw [Process_of_acquired env key p w hacq]
    simp only
    rw [hclean.1, hproc]
  · unfold acquired
    rw [hstaged]
    exact Option.some_ne_none _
  · intro hrm
    exact Process_removes_staged_file_of_acquired env key p w hacq hrm
  · intro hrm
    rw [Process_of_acquired env key p w hacq]
    simp only
    rw [cleanUpTempData_of_error env key _ _ hrm]
    exact processBody_keeps_file env key p w hacq

/-- A store that refuses `PutObject`, with `os.RemoveAll` succeeding: `Process` returns that
error, and the file staged by Acquire is gone afterwards. -/
theorem Process_failure_removes_staged_file_witness :
    (Process putFailsEnv "b.jpg" sampleProcessor sampleWorld).err = some "put object error" ∧
    (Process putFailsEnv "b.jpg" sampleProcessor sampleWorld).proc.localTempPath
      = "/tmp/image-optimization/17.jpg" ∧
    (acquired putFailsEnv "b.jpg" sampleProcessor sampleWorld).world.files
      "/tmp/image-optimization/17.jpg" = some [255, 216, 255] ∧
    (Process putFailsEnv "b.jpg" sampleProcessor sampleWorld).world.files
      "/tmp/image-optimization/17.jpg" = none := by
  have h := Process_failure_removes_staged_file putFailsEnv "b.jpg" sampleProcessor sampleWorld
    "put object error" rfl
    (Or.inr (by
      simp [transformed, published, acquired, downloadImage, optimizeImage, replaceImage,
        ensureTempDirectoryExists, imagingOpen, writeFile, compress, putFailsEnv, sampleEnv,
        sampleWorld, sampleProcessor, NewProcessor, initialQualityPercentage, reduceLoop]))
  exact ⟨h.1, h.2.1, rfl, h.2.2.2.1 rfl⟩

/-- C5 as stated fails: with a store that refuses `PutObject` and an `os.RemoveAll` that fails,
`Process` succeeds at Acquire and at Transform, fails at Publish and returns that error, and the
staged file, holding the 70 bytes of the quality-70 encoding, still exists when it returns. -/
theorem Process_failure_keeps_staged_file_when_RemoveAll_fails :
    (acquired removeFailsEnv "b.jpg" sampleProcessor sampleWorld).err = none ∧
    (transformed removeFailsEnv "b.jpg" sampleProcessor sampleWorld).err = none ∧
    (published removeFailsEnv "b.jpg" sampleProcessor sampleWorld).err = some "put object error" ∧
    (Process removeFailsEnv "b.jpg" sampleProcessor sampleWorld).err = some "put object error" ∧
    (Process removeFailsEnv "b.jpg" sampleProcessor sampleWorld).proc.localTempPath
      = "/tmp/image-optimization/17.jpg" ∧
    (Process removeFailsEnv "b.jpg" sampleProcessor sampleWorld).world.files
      "/tmp/image-optimization/17.jpg" = some (List.replicate 70 0) := by
  have hpath : "/tmp/image-optimization/" ++ toString (17 : Int) ++ ".jpg"
      = "/tmp/image-optimization/17.jpg" := by decide
  refine ⟨rfl, ?_, ?_, ?_, ?_, ?_⟩ <;>
    simp [Process, processBody, transformed, published, acquired, downloadImage, optimizeImage,
      replaceImage, cleanUpTempData, ensureTempDirectoryExists, imagingOpen, writeFile, removeFile,
      compress, removeFailsEnv, putFailsEnv, sampleEnv, sampleWorld, sampleProcessor, NewProcessor,
      initialQualityPercentage, reduceLoop, hpath]

/-- C6, evaluated: when the store refuses `GetObject`, `Process` returns that error while the
file `os.Create` made stays in the file system, although `os.RemoveAll` would have succeeded:
the early return precedes the `defer` statement. -/
theorem Process_leaves_staged_file_when_GetObject_fails :
    (Process getFailsEnv "b.jpg" sampleProcessor sampleWorld).err = some "get object error" ∧
    (Process getFailsEnv "b.jpg" sampleProcessor sampleWorld).proc.localTempPath
      = "/tmp/image-optimization/17.jpg" ∧
    sampleWorld.files "/tmp/image-optimization/17.jpg" = none ∧
    (Process getFailsEnv "b.jpg" sampleProcessor sampleWorld).world.files
      "/tmp/image-optimization/17.jpg" = some [] ∧
    getFailsEnv.removeAll = none := by
  refine ⟨rfl, rfl, rfl, rfl, rfl⟩

/-- C7. `Process(key)` calls the store's `PutObject` at most once, with the key it was given and
the content of the staged file as Transform left it, and only if both Acquire and Transform
returned no error; if Acquire or Transform fails, the store receives no `PutObject` at all. -/
theorem Process_puts_at_most_once {Img : Type} (env : Env Img) (key : String)
    (p : Processor) (w : World Img) :
    ∃ l : List (String × Bytes),
      (Process env key p w).world.puts = w.puts ++ l ∧ l.length ≤ 1 ∧
      (∀ x ∈ l, x.1 = key ∧
        (transformed env key p w).world.files (acquired env key p w).proc.localTempPath = some x.2) ∧
      (l ≠ [] → (acquired env key p w).err = none ∧ (transformed env key p w).err = none) ∧
      ((acquired env key p w).err ≠ none ∨ (transformed env key p w).err ≠ none →
        (Process env key p w).world.puts = w.puts) := by
  have hd : (acquired env key p w).world.puts = w.puts := (downloadImage_frame env key p w).1
  have ht : (transformed env key p w).world.puts = w.puts :=
    ((optimizeImage_frame env key _ _).2).trans hd
  have htp : (transformed env key p w).proc = (acquired env key p w).proc :=
    (optimizeImage_frame env key _ _).1
  suffices hmain : ∃ l : List (String × Bytes),
      (Process env key p w).world.puts = w.puts ++ l ∧ l.length ≤ 1 ∧
      (∀ x ∈ l, x.1 = key ∧
        (transformed env key p w).world.files (acquired env key p w).proc.localTempPath = some x.2) ∧
      (l ≠ [] → (acquired env key p w).err = none ∧ (transformed env key p w).err = none) by
    obtain ⟨l, h1, h2, h3, h4⟩ := hmain
    refine ⟨l, h1, h2, h3, h4, ?_⟩
    intro hne
    have hl : l = [] := by
      by_contra hcon
      have := h4 hcon
      rcases hne with h | h
      · exact h this.1
      · exact h this.2
    rw [h1, hl, List.append_nil]
  cases hacq : (acquired env key p w).err with
  | some e =>
    rw [Process_of_not_acquired env key p w e hacq]
    exact ⟨[], by simp [hd], by simp, by simp, by simp⟩
  | none =>
    rw [Process_of_acquired env key p w hacq]
    simp only
    rw [(cleanUpTempData_spec env key _ _).2.1, processBody_eq]
    cases htr : (transformed env key p w).err with
    | some e =>
      simp only
      exact ⟨[], by simp [ht], by simp, by simp, by simp⟩
    | none =>
      simp only
      obtain ⟨_, l, hl1, hl2, hl3⟩ := replaceImage_puts env key (transformed env key p w).proc
        (transformed env key p w).world
      refine ⟨l, ?_, hl2, ?_, fun _ => ⟨trivial, trivial⟩⟩
      · unfold published
        rw [hl1, ht]
      · intro x hx
        have := hl3 x hx
        rw [htp] at this
        exact this

/-! ### What every interleaving of `main` preserves -/

theorem weigh_set (f : Task → Int) : ∀ (l : List Task) (k : Nat) (a b : Task),
    l.get? k = some a → weigh f (l.set k b) = weigh f l - f a + f b := by
  intro l
  induction l with
  | nil => intro k a b h; simp at h
  | cons x xs ih =>
    intro k a b h
    cases k with
    | zero =>
      simp only [List.get?_cons_zero, Option.some.injEq] at h
      subst h
      simp only [weigh, List.set_cons_zero, List.map_cons, List.sum_cons]
      ring
    | succ k =>
      simp only [List.get?_cons_succ] at h
      have := ih k a b h
      simp only [weigh, List.set_cons_succ, List.map_cons, List.sum_cons] at this ⊢
      rw [this]
      ring

theorem weigh_isReported_le (l : List Task) : weigh isReported l ≤ (l.length : Int) := by
  induction l with
  | nil => simp [weigh]
  | cons x xs ih =>
    simp only [weigh, List.map_cons, List.sum_cons, List.length_cons] at ih ⊢
    have : isReported x ≤ 1 := by unfold isReported; split <;> decide
    push_cast
    omega

theorem weigh_returned_le (l : List Task) :
    weigh doneReturned l + weigh failedReturned l ≤ weigh isReported l := by
  induction l with
  | nil => simp [weigh]
  | cons x xs ih =>
    simp only [weigh, List.map_cons, List.sum_cons] at ih ⊢
    have : doneReturned x + failedReturned x ≤ isReported x := by
      obtain ⟨failed, pc⟩ := x
      cases failed <;> cases pc <;> decide
    omega

theorem reported_of_weigh (l : List Task) (h : weigh isReported l = (l.length : Int)) :
    ∀ t ∈ l, t.pc ≠ TaskPc.running := by
  induction l with
  | nil => intro t ht; cases ht
  | cons x xs ih =>
    have hle := weigh_isReported_le xs
    simp only [weigh, List.map_cons, List.sum_cons, List.length_cons] at h hle ih
    push_cast at h
    have hx : isReported x ≤ 1 := by unfold isReported; split <;> decide
    intro t ht
    rcases List.mem_cons.mp ht with rfl | ht
    · intro hrun
      have : isReported t = 0 := by simp [isReported, hrun]
      omega
    · exact ih (by omega) t ht

theorem weigh_reported_eq (l : List Task) (h : ∀ t ∈ l, t.pc = TaskPc.afterSend → t.failed = true) :
    weigh failedReported l + weigh doneReturned l = weigh isReported l := by
  induction l with
  | nil => simp [weigh]
  | cons x xs ih =>
    have ih2 := ih (fun t ht => h t (List.mem_cons_of_mem _ ht))
    have hx := h x (List.mem_cons_self _ _)
    simp only [weigh, List.map_cons, List.sum_cons] at ih2 ⊢
    have : failedReported x + doneReturned x = isReported x := by
      obtain ⟨failed, pc⟩ := x
      cases failed <;> cases pc <;> first | decide | (simp at hx)
    omega

theorem init_inv (outcomes : List Bool) : Inv outcomes.length (Sched.init outcomes) := by
  have hz : ∀ (f : Task → Int), (∀ b, f { failed := b, pc := TaskPc.running } = 0) →
      weigh f (outcomes.map (fun failed => { failed := failed, pc := TaskPc.running })) = 0 := by
    intro f hf
    induction outcomes with
    | nil => simp [weigh]
    | cons b bs ih =>
      simp only [weigh, List.map_cons, List.sum_cons, hf] at ih ⊢
      simpa using ih
  refine ⟨by simp [Sched.init], ?_, ?_, ?_, ?_, ?_, ?_, ?_, rfl⟩
  · intro t ht hpc
    simp only [Sched.init, List.mem_map] at ht
    obtain ⟨b, _, rfl⟩ := ht
    cases hpc
  · simp only [Sched.init]
    rw [hz failedReturned (by intro b; simp [failedReturned])]
    simp
  · simp only [Sched.init]
    rw [hz doneReturned (by intro b; simp [doneReturned])]
  · simp only [Sched.init]
    rw [hz failedReported (by intro b; simp [failedReported])]
    simp
  · simp only [Sched.init]
    rw [hz doneReturned (by intro b; simp [doneReturned])]
    simp
  · intro h; cases h
  · intro h; cases h

theorem mem_of_mem_set (l : List Task) (k : Nat) (b t : Task) (h : t ∈ l.set k b) : t ∈ l ∨ t = b :=
  List.mem_or_eq_of_mem_set h

/-- Every step of every goroutine preserves the invariant. -/
theorem step_inv (n : Nat) (s t : Sched) (a : Action) (h : Inv n s) (hs : step s a = some t) :
    Inv n t := by
  unfold step at hs
  split at hs
  · cases hs
  · rename_i hlive
    cases a with
    | sendErr k =>
      simp only at hs
      split at hs
      · rename_i hget
        split at hs
        · rename_i hclosed
          exfalso
          have hall := reported_of_weigh s.tasks (by rw [h.closed hclosed, h.len])
          exact hall _ (List.get?_mem hget) rfl
        · rename_i hopen
          cases hs
          refine ⟨by simp [h.len], ?_, ?_, ?_, ?_, ?_, ?_, h.fin, h.noPanic⟩
          · intro t ht hpc
            rcases mem_of_mem_set _ _ _ _ ht with ht | rfl
            · exact h.sent t ht hpc
            · rfl
          · simp only [weigh_set failedReturned _ _ _ _ hget, h.num]
            simp [failedReturned]
          · simp only [weigh_set doneReturned _ _ _ _ hget, h.idx]
            simp [doneReturned]
          · simp only [weigh_set failedReported _ _ _ _ hget]
            push_cast
            rw [h.errs]
            simp [failedReported]
          · simp only [weigh_set doneReturned _ _ _ _ hget, h.dones]
            simp [doneReturned]
          · intro hc; exact absurd hc hopen
      · cases hs
    | decrement k =>
      simp only at hs
      split at hs
      · rename_i failed hget
        cases hs
        have hf : failed = true := h.sent _ (List.get?_mem hget) rfl
        subst hf
        refine ⟨by simp [h.len], ?_, ?_, ?_, ?_, ?_, ?_, h.fin, h.noPanic⟩
        · intro t ht hpc
          rcases mem_of_mem_set _ _ _ _ ht with ht | rfl
          · exact h.sent t ht hpc
          · rfl
        · simp only [weigh_set failedReturned _ _ _ _ hget, h.num]
          simp [failedReturned]
          ring
        · simp only [weigh_set doneReturned _ _ _ _ hget, h.idx]
          simp [doneReturned]
        · simp only [weigh_set failedReported _ _ _ _ hget, h.errs]
          simp [failedReported]
        · simp only [weigh_set doneReturned _ _ _ _ hget, h.dones]
          simp [doneReturned]
        · intro hc
          simp only [weigh_set isReported _ _ _ _ hget, h.closed hc]
          simp [isReported]
      · cases hs
    | sendDone k =>
      simp only at hs
      split at hs
      · rename_i hget
        split at hs
        · cases hs
          refine ⟨by simp [h.len], ?_, ?_, ?_, ?_, ?_, ?_, ?_, h.noPanic⟩
          rotate_right
          · intro hf
            simp only at hf
            simp [hf] at hlive
          · intro t ht hpc
            rcases mem_of_mem_set _ _ _ _ ht with ht | rfl
            · exact h.sent t ht hpc
            · cases hpc
          · simp only [weigh_set failedReturned _ _ _ _ hget, h.num]
            simp [failedReturned]
          · simp only [weigh_set doneReturned _ _ _ _ hget, h.idx]
            simp [doneReturned]
          · simp only [weigh_set failedReported _ _ _ _ hget, h.errs]
            simp [failedReported]
          · simp only [weigh_set doneReturned _ _ _ _ hget]
            push_cast
            rw [h.dones]
            simp [doneReturned]
          · intro hc; cases hc
        · cases hs
      · cases hs
    | waiterTest =>
      simp only at hs
      split at hs
      · rename_i htest
        split at hs
        · cases hs
          refine ⟨h.len, h.sent, h.num, h.idx, h.errs, h.dones, ?_, ?_, h.noPanic⟩
          · intro hc; cases hc
          · intro hf
            have := h.fin hf
            rw [htest] at this
            cases this
        · rename_i hge
          cases hs
          refine ⟨h.len, h.sent, h.num, h.idx, h.errs, h.dones, ?_, fun _ => rfl, h.noPanic⟩
          intro _
          have h1 := weigh_returned_le s.tasks
          have h2 := weigh_isReported_le s.tasks
          have h3 := h.num
          have h4 := h.idx
          have h5 := h.len
          show weigh isReported s.tasks = (n : Int)
          omega
      · cases hs
    | mainReturn =>
      simp only at hs
      split at hs
      · rename_i hclosed
        cases hs
        exact ⟨h.len, h.sent, h.num, h.idx, h.errs, h.dones, h.closed, fun _ => hclosed, h.noPanic⟩
      · cases hs

theorem run_inv (n : Nat) (acts : List Action) : ∀ (s t : Sched), Inv n s → run s acts = some t → Inv n t := by
  induction acts with
  | nil =>
    intro s t h hr
    simp only [run, Option.some.injEq] at hr
    exact hr ▸ h
  | cons a rest ih =>
    intro s t h hr
    simp only [run] at hr
    split at hr
    · cases hr
    · rename_i u hu
      exact ih u t (step_inv n s u a h hu) hr

/-- In every interleaving of `N` launched tasks, whatever their outcomes: no send hits the closed
`errChan`; the outcomes observed so far (errors logged plus done signals received) are one per
task that has reported; and when `main` has declared the batch finished, every task has reported
and exactly `N` outcomes have been observed. The protocol never finishes early. -/
theorem main_never_finishes_early (outcomes : List Bool) (acts : List Action) (s : Sched)
    (h : run (Sched.init outcomes) acts = some s) :
    s.panicked = false ∧
    (s.errorsLogged : Int) + (s.donesReceived : Int) = weigh isReported s.tasks ∧
    (s.mainFinished = true →
      (∀ t ∈ s.tasks, t.pc ≠ TaskPc.running) ∧ s.errorsLogged + s.donesReceived = outcomes.length) := by
  have hinv := run_inv outcomes.length acts _ s (init_inv outcomes) h
  have hsum := weigh_reported_eq s.tasks hinv.sent
  have hobs : (s.errorsLogged : Int) + (s.donesReceived : Int) = weigh isReported s.tasks := by
    rw [hinv.errs, hinv.dones]; exact hsum
  refine ⟨hinv.noPanic, hobs, ?_⟩
  intro hfin
  have hall := hinv.closed (hinv.fin hfin)
  refine ⟨reported_of_weigh s.tasks (by rw [hall, hinv.len]), ?_⟩
  have : ((s.errorsLogged + s.donesReceived : Nat) : Int) = (outcomes.length : Int) := by
    push_cast; rw [hobs, hall]
  exact_mod_cast this

/-! ### The completion protocol of `main` -/

/-- C8, evaluated: two tasks are launched, one fails and one succeeds. Under `stuckSchedule` both
report their one outcome (one error logged, one done signal received) and return, yet no
goroutine can take a step any more and `main` has not finished: the waiter is blocked in
`<-doneChan` for a done signal that no task will send, `errChan` is never closed, and `main`
stays in its loop. Under `luckySchedule` the same two tasks let `main` finish. -/
theorem main_never_finishes_after_one_failure :
    run (Sched.init [true, false]) stuckSchedule = some stuckState ∧
    (∀ t ∈ stuckState.tasks, t.pc = TaskPc.returned) ∧
    stuckState.errorsLogged + stuckState.donesReceived = 2 ∧
    stuckState.waiter = WaiterPc.receive ∧
    stuckState.mainFinished = false ∧
    (∀ a : Action, step stuckState a = none) ∧
    (∃ s, run (Sched.init [true, false]) luckySchedule = some s ∧ s.mainFinished = true ∧
      s.errorsLogged + s.donesReceived = 2) := by
  refine ⟨by decide, by decide, by decide, by decide, by decide, ?_, ⟨_, rfl, by decide, by decide⟩⟩
  intro a
  cases a with
  | sendErr k =>
    match k with
    | 0 => rfl
    | 1 => rfl
    | k + 2 => rfl
  | decrement k =>
    match k with
    | 0 => rfl
    | 1 => rfl
    | k + 2 => rfl
  | sendDone k =>
    match k with
    | 0 => rfl
    | 1 => rfl
    | k + 2 => rfl
  | waiterTest => rfl
  | mainReturn => rfl

end ImageOptimization
